import Mathlib

/-!
Verification development for the voice-assistant core of this repository
(`voice_assist/voice_assistant.py`): the command router, permission gate,
interruptible synthesizer, wake-word retry logic and the turn controller.

The Python code is shallowly embedded as pure Lean functions.  External
collaborators (audio device, Vosk transcription, the msty HTTP endpoint,
espeak playback, the system clock) show up as oracle fields of an `Env`
record, and the observable actions of a call (speech output, audio
recording, HTTP requests, browser launches, device-open attempts) are
returned as an explicit list of `Event`s, in program order.  Exceptions of
the source are represented by the outcome values of the oracles; an
`except` clause of the source corresponds to the branch consuming such an
outcome.  Python string primitives (`in`, `startswith`, `lower`, `strip`,
`split`, `replace`, `re.split`, `re.findall`) are modelled character by
character on `List Char`; ASCII is assumed for case conversion, which
covers every constant the program compares against.  Python floats are
modelled by exact integer fractions (`Frac`); every value the claims
exercise is exactly representable, so the model and IEEE arithmetic agree
on them.
-/

/-- `leadsWith sub l` is Python's `l.startswith(sub)`: `sub` is a leading
segment of `l`. -/
def leadsWith : List Char → List Char → Bool
  | [], _ => true
  | _ :: _, [] => false
  | a :: as, b :: bs => a == b && leadsWith as bs

/-- `hasSegment sub l` is Python's `sub in l`: `sub` occurs contiguously in
`l`. -/
def hasSegment (sub : List Char) : List Char → Bool
  | [] => leadsWith sub []
  | c :: t => leadsWith sub (c :: t) || hasSegment sub t

/-- Python `sub in s` on strings. -/
def strHas (s sub : String) : Bool := hasSegment sub.data s.data

/-- Python `s.lower()` (ASCII model). -/
def pyLower (s : String) : String := ⟨s.data.map Char.toLower⟩

/-- Whitespace test used by Python `strip()`/`split()` (ASCII model). -/
def wsChar (c : Char) : Bool := c.isWhitespace

/-- Python `s.strip()` on character lists: drop whitespace from both ends. -/
def pyStripL (l : List Char) : List Char :=
  ((l.dropWhile wsChar).reverse.dropWhile wsChar).reverse

/-- Python `s.strip()`. -/
def pyStrip (s : String) : String := ⟨pyStripL s.data⟩

/-- `s.split(sep)[0]` for a nonempty separator: the part of `l` before the
first occurrence of `sub` (the whole list when `sub` does not occur). -/
def takeUntilSeg (sub : List Char) : List Char → List Char
  | [] => []
  | c :: t => if leadsWith sub (c :: t) then [] else c :: takeUntilSeg sub t

/-- One step of Python `s.replace(pat, rep)` with explicit fuel; the fuel is
instantiated with the length of the list, which suffices because every step
consumes at least one character. -/
def replaceSegF (pat rep : List Char) : Nat → List Char → List Char
  | 0, l => l
  | _ + 1, [] => []
  | f + 1, c :: t =>
    if pat.length != 0 && leadsWith pat (c :: t) then
      rep ++ replaceSegF pat rep f (t.drop (pat.length - 1))
    else
      c :: replaceSegF pat rep f t

/-- Python `s.replace(pat, rep)` (all occurrences, left to right). -/
def pyReplace (s pat rep : String) : String :=
  ⟨replaceSegF pat.data rep.data s.data.length s.data⟩

/-- Sentence punctuation of the splitter regex `[.!?]+`. -/
def sentPunct (c : Char) : Bool := c = '.' || c = '!' || c = '?'

/-- A character that ends a word for the purposes of word accounting:
whitespace or sentence punctuation. -/
def pwChar (c : Char) : Bool := wsChar c || sentPunct c

/-- Python `re.split('[.!?]+', text)`: pieces between maximal runs of
sentence punctuation (empty pieces are kept, as `re.split` keeps them). -/
def splitPunct : List Char → List (List Char)
  | [] => [[]]
  | c :: t =>
    let r := splitPunct t
    if sentPunct c then
      match t with
      | [] => [] :: r
      | d :: _ => if sentPunct d then r else [] :: r
    else
      match r with
      | [] => [[c]]
      | piece :: rest => (c :: piece) :: rest

/-- Maximal runs of non-`p` characters, in order: Python `s.split()` when
`p` is whitespace.  Tokens of `pwChar` are the words of a text with
sentence punctuation stripped. -/
def tokensBy (p : Char → Bool) : List Char → List (List Char)
  | [] => []
  | c :: t =>
    let r := tokensBy p t
    if p c then r
    else
      match t with
      | [] => [[c]]
      | d :: _ =>
        if p d then [c] :: r
        else
          match r with
          | [] => [[c]]
          | tok :: rest => (c :: tok) :: rest

/-- The inner merge loop of `split_into_sentences`: accumulate pieces into
`cur` (each followed by `". "`), flushing whenever the accumulated text has
at least five whitespace-words or the piece equals the last piece.  The
leftover accumulator is discarded when the loop ends, exactly as in the
source. -/
def mergeLoop (lastS : List Char) : List (List Char) → List Char → List (List Char)
  | [], _ => []
  | s :: rest, cur =>
    let cur' := cur ++ s ++ ('.' :: ' ' :: [])
    if 5 ≤ (tokensBy wsChar cur').length ∨ s = lastS then
      pyStripL cur' :: mergeLoop lastS rest []
    else
      mergeLoop lastS rest cur'

/-- `split_into_sentences` (voice_assistant.py, lines 248-275): split on
sentence punctuation, strip and drop empty pieces, fall back to the whole
text when nothing remains, then merge short pieces. -/
def split_into_sentences (text : String) : List String :=
  let sentences := ((splitPunct text.data).map pyStripL).filter (fun l => l ≠ [])
  if sentences.isEmpty then [text]
  else
    let cleaned := mergeLoop (sentences.getLastD []) sentences []
    if cleaned.isEmpty then [text] else cleaned.map (fun l => ⟨l⟩)

/-- Digit run at the front of a list. -/
def takeDigits (l : List Char) : List Char × List Char :=
  (l.takeWhile Char.isDigit, l.dropWhile Char.isDigit)

/-- One match of the regex `-?\d+\.?\d*` at the head of the list: the
matched token and the remaining characters, or `none` when the regex does
not match here. -/
def numToken : List Char → Option (List Char × List Char)
  | [] => none
  | c :: t =>
    if c = '-' then
      match t with
      | [] => none
      | d :: _ =>
        if d.isDigit then
          let (ds, r1) := takeDigits t
          match r1 with
          | '.' :: r2 =>
            let (fs, r3) := takeDigits r2
            some ('-' :: ds ++ '.' :: fs, r3)
          | _ => some ('-' :: ds, r1)
        else none
    else if c.isDigit then
      let (ds, r1) := takeDigits (c :: t)
      match r1 with
      | '.' :: r2 =>
        let (fs, r3) := takeDigits r2
        some (ds ++ '.' :: fs, r3)
      | _ => some (ds, r1)
    else none

/-- `re.findall(r'-?\d+\.?\d*', text)` with explicit fuel; fuel equal to
the length of the list suffices because every step consumes at least one
character. -/
def scanNumbersF : Nat → List Char → List (List Char)
  | 0, _ => []
  | _ + 1, [] => []
  | f + 1, c :: t =>
    match numToken (c :: t) with
    | some (tok, rest) => tok :: scanNumbersF f rest
    | none => scanNumbersF f t

/-- All number tokens of a text, left to right, non-overlapping. -/
def scanNumbers (l : List Char) : List (List Char) := scanNumbersF l.length l

/-- Exact fraction standing in for a Python float.  All operations the
program performs keep the (unreduced) denominator positive; every value the
claims exercise is exactly representable in binary floating point as well,
so the model agrees with the source arithmetic on them. -/
structure Frac where
  num : Int
  den : Int
deriving DecidableEq, Repr

instance : OfNat Frac n := ⟨⟨n, 1⟩⟩
instance : Add Frac := ⟨fun a b => ⟨a.num * b.den + b.num * a.den, a.den * b.den⟩⟩
instance : Sub Frac := ⟨fun a b => ⟨a.num * b.den - b.num * a.den, a.den * b.den⟩⟩
instance : Mul Frac := ⟨fun a b => ⟨a.num * b.num, a.den * b.den⟩⟩
instance : Div Frac := ⟨fun a b => ⟨a.num * b.den, a.den * b.num⟩⟩

/-- The float constant `0.3048` of the distance conversions. -/
def footInMeters : Frac := ⟨3048, 10000⟩

/-- Decimal digits of a natural number (explicit fuel; fuel `n` suffices
since a positive number has at most `n` digits). -/
def natDigitsAux : Nat → Nat → List Char
  | 0, _ => []
  | f + 1, n => if n = 0 then [] else natDigitsAux f (n / 10) ++ [Char.ofNat (48 + n % 10)]

/-- Decimal string of a natural number. -/
def natToString (n : Nat) : String := if n = 0 then "0" else ⟨natDigitsAux n n⟩

/-- Decimal string of an integer. -/
def intToString (m : Int) : String :=
  (if m < 0 then "-" else "") ++ natToString m.natAbs

/-- Left-pad with zeros to `k` characters. -/
def padLeftZeros (k : Nat) (s : String) : String :=
  if s.length < k then String.mk (List.replicate (k - s.length) '0') ++ s else s

/-- Print `m / 10^k` with exactly `k` digits after the decimal point. -/
def decimalOfScaled (m : Int) (k : Nat) : String :=
  let a := m.natAbs
  (if m < 0 then "-" else "") ++ natToString (a / 10 ^ k) ++ "." ++
    padLeftZeros k (natToString (a % 10 ^ k))

/-- Smallest exponent in `[k, k+fuel)` making `q` a scaled integer. -/
def smallestPow10Aux (q : Frac) : Nat → Nat → Option Nat
  | 0, _ => none
  | f + 1, k =>
    if (q.num * (10 : Int) ^ k) % q.den = 0 then some k else smallestPow10Aux q f (k + 1)

/-- Python `f"{x}"` for a float: `n.0` for an integral value, otherwise the
terminating decimal expansion when one exists within float precision.  Only
integral values are exercised by the program's formatted outputs that the
claims mention. -/
def formatPyFloat (q : Frac) : String :=
  if q.den = 0 then "nan"
  else if q.num % q.den = 0 then intToString (q.num / q.den) ++ ".0"
  else
    match smallestPow10Aux q 17 1 with
    | some k => decimalOfScaled ((q.num * (10 : Int) ^ k) / q.den) k
    | none => intToString q.num ++ "/" ++ intToString q.den

/-- Python `f"{x:.1f}"` / `f"{x:.2f}"`: round to `decimals` places (half
away from zero on exact values; the claims only exercise values that are
exact at this precision, where all rounding modes agree). -/
def formatFixed (decimals : Nat) (q : Frac) : String :=
  let p : Int := (10 : Int) ^ decimals
  decimalOfScaled ((q.num * p * 2 + q.den).fdiv (2 * q.den)) decimals

/-- Fraction denoted by a matched number token (optional sign, integer
digits, optional fractional digits). -/
def digitsToNat : List Char → Nat
  | [] => 0
  | c :: t => List.foldl (fun a d => a * 10 + (d.toNat - 48)) (c.toNat - 48) t

/-- Value of the digits of an unsigned number token. -/
def parsePos (l : List Char) : Frac :=
  let ip := l.takeWhile Char.isDigit
  let rest := l.dropWhile Char.isDigit
  match rest with
  | '.' :: frac =>
    let fs := frac.takeWhile Char.isDigit
    ⟨(digitsToNat ip : Int) * (10 : Int) ^ fs.length + (digitsToNat fs : Int), (10 : Int) ^ fs.length⟩
  | _ => ⟨(digitsToNat ip : Int), 1⟩

/-- Python `float(tok)` for a token matched by `-?\d+\.?\d*`. -/
def parseNum : List Char → Frac
  | '-' :: rest => let q := parsePos rest; ⟨-q.num, q.den⟩
  | l => parsePos l

/-- Observable action of the program, in program order. -/
inductive Event where
  | speakEv (text : String)
  | recordEv (seconds : Nat)
  | httpPostEv (url : String)
  | httpGetEv (url : String)
  | browserEv (url : String)
  | openAttemptEv
  | sleepEv (tenths : Nat)
deriving DecidableEq, Repr

/-- Outcome of one `requests.post` to the chat endpoint: either the call
raised (timeout, connection error), or it returned a status code together
with the result of extracting `choices[0].message.content` from the body
(`none` when the body is malformed and the extraction raises). -/
inductive AiOutcome where
  | raised
  | ok (status : Nat) (content : Option String)
deriving DecidableEq, Repr

/-- Outcome of the DuckDuckGo instant-answer request in
`fetch_and_read_results`: raised, a non-200 status, a 200 body without a
usable `AbstractText`/`Answer`, or a 200 body with the extracted answer. -/
inductive SearchOutcome where
  | raised
  | badStatus (code : Nat)
  | noAnswer
  | answer (text : String)
deriving DecidableEq, Repr

/-- The tri-state outcome of the permission gate described by the spec. -/
inductive PermissionState where
  | granted
  | denied
  | unclear
deriving DecidableEq, Repr

/-- Oracles for every external collaborator one turn can touch.  Audio
recordings are represented by the transcript the speech-to-text engine
would produce for them (`none` when recording itself fails), the clock by
its formatted output, interruption by the poll index at which the
background listener sets the shared cancellation flag (`none` when the wake
word is never heard), and playback length by a duration per segment. -/
structure Env where
  nowTime : String
  nowDate : String
  permissionAudio : Option String
  choiceAudio : Option String
  commandAudio : Option String
  aiLocal : AiOutcome
  aiUnrestricted : AiOutcome
  search : SearchOutcome
  browserOk : Bool
  flagAt : Option Nat
  segDur : Nat → Nat

/-- Whether the shared cancellation flag is set at poll time `t`. -/
def flagBool (fl : Option Nat) (t : Nat) : Bool :=
  match fl with
  | none => false
  | some f => f ≤ t

/-- The segment loop of `speak_with_interruption` (lines 170-189): before a
segment the flag is checked (`break` when set); during a segment of
duration `d` the flag is polled and the playback terminated at the flag
time; otherwise the segment completes and the loop continues.  Returns how
many segments were started (espeak spawned) and the time at which the loop
ended. -/
def runSegments (fl : Option Nat) : List Nat → Nat → Nat × Nat
  | [], t => (0, t)
  | d :: rest, t =>
    if flagBool fl t then (0, t)
    else if flagBool fl (t + d) then (1, fl.getD (t + d))
    else
      let r := runSegments fl rest (t + d)
      (r.1 + 1, r.2)

/-- Playback durations the oracle assigns to the segments of `text`. -/
def speakSegDurations (env : Env) (text : String) : List Nat :=
  (List.range (split_into_sentences text).length).map env.segDur

/-- Number of segments of `text` whose playback is started. -/
def segmentsStarted (env : Env) (text : String) : Nat :=
  (runSegments env.flagAt (speakSegDurations env text) 0).1

/-- `speak_with_interruption` (lines 151-203): split into sentences, play
them while a background listener watches for the wake word, report whether
the interruption queue is non-empty at the end.  The queue is non-empty
exactly when the listener saw the wake word before the loop ended, i.e.
when the flag time is at most the loop's end time. -/
def speak_with_interruption (env : Env) (text : String) : Bool × List Event :=
  let sents := split_into_sentences text
  let r := runSegments env.flagAt (speakSegDurations env text) 0
  (flagBool env.flagAt r.2, (sents.take r.1).map (fun s => Event.speakEv (pyStrip s)))

/-- `speak` (lines 129-149): short texts and non-interruptible requests are
played as one espeak run; long interruptible texts go through
`speak_with_interruption`. -/
def speak (env : Env) (text : String) (allowInterruption : Bool) : Bool × List Event :=
  if allowInterruption = false ∨ text.length < 100 then (false, [Event.speakEv text])
  else speak_with_interruption env text

/-- The affirmative word list of `request_online_permission`. -/
def affirmativeWords : List String :=
  ["yes", "yeah", "yep", "okay", "ok", "sure", "go ahead", "please"]

/-- The negative word list of `request_online_permission`. -/
def negativeWords : List String :=
  ["no", "nope", "don\x27t", "stop", "cancel", "nevermind"]

/-- The fixed permission question. -/
def permissionQuestion : String :=
  "I cannot answer that from my local resources. Do you want me to check online?"

/-- The classification step of `request_online_permission` on the lowered,
stripped transcript: affirmative substrings first, then negative, else
unclear. -/
def classifyResponse (responseLower : String) : PermissionState :=
  if affirmativeWords.any (fun w => strHas responseLower w) then .granted
  else if negativeWords.any (fun w => strHas responseLower w) then .denied
  else .unclear

/-- `request_online_permission` (lines 323-353): speak the fixed question,
record three seconds, classify the transcript; a failed recording, a
negative transcript and an unclear transcript all yield `false`. -/
def request_online_permission (env : Env) : Bool × List Event :=
  let evs := [Event.speakEv permissionQuestion, Event.recordEv 3]
  match env.permissionAudio with
  | none => (false, evs)
  | some t =>
    match classifyResponse (pyStrip (pyLower t)) with
    | .granted => (true, evs)
    | .denied => (false, evs)
    | .unclear => (false, evs)

/-- Percent-encoding of one character for `urllib.parse.quote_plus`
(ASCII model). -/
def quoteChar (c : Char) : List Char :=
  if c.isAlphanum || c = '-' || c = '_' || c = '.' || c = '~' then [c]
  else if c = ' ' then ['+']
  else
    let hx := "0123456789ABCDEF".data
    ['%', hx.getD (c.toNat / 16 % 16) '0', hx.getD (c.toNat % 16) '0']

/-- `urllib.parse.quote_plus`. -/
def quotePlus (s : String) : String := ⟨s.data.flatMap quoteChar⟩

/-- The DuckDuckGo instant-answer URL of `fetch_and_read_results`. -/
def searchUrl (q : String) : String :=
  "https://api.duckduckgo.com/?q=" ++ quotePlus q ++ "&format=json&no_html=1&skip_disambig=1"

/-- The browser search URL of `open_browser_search`. -/
def browserUrl (q : String) : String := "https://duckduckgo.com/?q=" ++ quotePlus q

/-- `open_browser_search` (lines 437-453): launch firefox on the search
URL; when `Popen` raises nothing is launched and the error string is
returned. -/
def open_browser_search (env : Env) (q : String) : String × List Event :=
  if env.browserOk then
    ("Opened browser search for " ++ q, [Event.browserEv (browserUrl q)])
  else
    ("Could not open web browser", [])

/-- Python truncation of a long answer (slicing counts code points). -/
def truncAnswer (s : String) : String :=
  if 300 < s.length then
    (⟨s.data.take 300⟩ : String) ++ "... would you like me to open a browser for more details?"
  else s

/-- `fetch_and_read_results` (lines 391-435): announce, issue the GET, and
either read the cleaned answer or fall back to the browser. -/
def fetch_and_read_results (env : Env) (q : String) : String × List Event :=
  let pre := [Event.speakEv "Let me search for that", Event.httpGetEv (searchUrl q)]
  match env.search with
  | .raised =>
    let r := open_browser_search env q
    (r.1, pre ++ [Event.speakEv "I had trouble searching. Let me open a browser for you instead."] ++ r.2)
  | .badStatus _ =>
    let r := open_browser_search env q
    (r.1, pre ++ r.2)
  | .noAnswer =>
    let r := open_browser_search env q
    (r.1, pre ++ [Event.speakEv "I couldn\x27t find a direct answer. Let me open a browser search for you."] ++ r.2)
  | .answer a =>
    (truncAnswer (pyReplace (pyReplace a "\n" " ") "  " " "), pre)

/-- The read-choice word list of `web_search`. -/
def readWords : List String := ["read", "tell", "say", "speak", "answer"]

/-- The browse-choice word list of `web_search`. -/
def browseWords : List String := ["browser", "open", "window", "firefox", "chrome"]

/-- The fixed response of `web_search` when permission is not granted. -/
def stayLocalMsg : String := "Okay, staying local. Is there anything else I can help you with?"

/-- `web_search` (lines 355-389): gate on permission; when granted, ask
read-vs-browse and dispatch (reading is the default for missing or unclear
choices). -/
def web_search (env : Env) (q : String) : String × List Event :=
  let perm := request_online_permission env
  if perm.1 = false then (stayLocalMsg, perm.2)
  else
    let evsQ := perm.2 ++
      [Event.speakEv "Would you like me to read you the answer, or open a browser window?",
       Event.recordEv 4]
    match env.choiceAudio with
    | none =>
      let r := fetch_and_read_results env q
      (r.1, evsQ ++ r.2)
    | some t =>
      let low := pyStrip (pyLower t)
      if readWords.any (fun w => strHas low w) then
        let r := fetch_and_read_results env q
        (r.1, evsQ ++ r.2)
      else if browseWords.any (fun w => strHas low w) then
        let r := open_browser_search env q
        (r.1, evsQ ++ r.2)
      else
        let r := fetch_and_read_results env q
        (r.1, evsQ ++ r.2)

/-- The chat-completions endpoint both AI calls POST to. -/
def chatUrl : String := "http://localhost:10000/v1/chat/completions"

/-- Apology returned on a non-200 status. -/
def apologyBadStatus : String := "Sorry, I couldn\x27t process that request"

/-- Apology returned when the call or the body extraction raises. -/
def apologyError : String := "Sorry, there was an error processing your request"

/-- The fixed response of `query_ai_local_only` when the model asks for
online resources and permission is not granted. -/
def stickLocalMsg : String :=
  "Okay, I\x27ll stick to what I know locally. Is there anything else I can help you with from my local knowledge?"

/-- The marker the local-only system prompt makes the model emit. -/
def needOnlineMarker : String := "I need online resources"

/-- `query_ai_unrestricted` (lines 495-521): POST without the local-only
instruction; apologies on failure.  The payload text does not influence the
modelled outcome. -/
def query_ai_unrestricted (env : Env) (text : String) : String × List Event :=
  let pre := [Event.httpPostEv chatUrl]
  match env.aiUnrestricted with
  | .raised => (apologyError, pre)
  | .ok s c =>
    if s = 200 then
      match c with
      | none => (apologyError, pre)
      | some content => (pyStrip content, pre)
    else (apologyBadStatus, pre)

/-- `query_ai_local_only` (lines 455-493): POST with the local-only system
prompt first; when the model answers with the online-resources marker, run
the permission gate and either stay local or re-query unrestricted;
apologies on failure. -/
def query_ai_local_only (env : Env) (text : String) : String × List Event :=
  let pre := [Event.httpPostEv chatUrl]
  match env.aiLocal with
  | .raised => (apologyError, pre)
  | .ok s c =>
    if s = 200 then
      match c with
      | none => (apologyError, pre)
      | some content =>
        let aiResponse := pyStrip content
        if strHas aiResponse needOnlineMarker then
          if (request_online_permission env).1 then
            let r := query_ai_unrestricted env text
            (r.1, pre ++ (request_online_permission env).2 ++ r.2)
          else
            (stickLocalMsg, pre ++ (request_online_permission env).2)
        else (aiResponse, pre)
    else (apologyBadStatus, pre)

/-- `get_time` (lines 277-280); the clock is an oracle. -/
def get_time (env : Env) : String := "The time is " ++ env.nowTime

/-- `get_date` (lines 282-285); the clock is an oracle. -/
def get_date (env : Env) : String := "Today is " ++ env.nowDate

/-- `handle_conversion` (lines 287-321): temperature when both unit words
occur (direction by whether `celsius` appears before the first
`fahrenheit`), else distance when both distance words occur, else `None`.
Numbers are taken from the original, uncased text. -/
def handle_conversion (text : String) : Option String :=
  let tl := pyLower text
  let tempResult :=
    if strHas tl "celsius" && strHas tl "fahrenheit" then
      match scanNumbers text.data with
      | [] => none
      | n0 :: _ =>
        if hasSegment "celsius".data (takeUntilSeg "fahrenheit".data tl.data) then
          let celsius := parseNum n0
          some (formatPyFloat celsius ++ " degrees Celsius is " ++
            formatFixed 1 (celsius * 9 / 5 + 32) ++ " degrees Fahrenheit")
        else
          let fahrenheit := parseNum n0
          some (formatPyFloat fahrenheit ++ " degrees Fahrenheit is " ++
            formatFixed 1 ((fahrenheit - 32) * 5 / 9) ++ " degrees Celsius")
    else none
  match tempResult with
  | some r => some r
  | none =>
    if strHas tl "feet" && strHas tl "meters" then
      match scanNumbers text.data with
      | [] => none
      | n0 :: _ =>
        if hasSegment "feet".data (takeUntilSeg "meters".data tl.data) then
          let feet := parseNum n0
          some (formatPyFloat feet ++ " feet is " ++
            formatFixed 2 (feet * footInMeters) ++ " meters")
        else
          let meters := parseNum n0
          some (formatPyFloat meters ++ " meters is " ++
            formatFixed 2 (meters / footInMeters) ++ " feet")
    else none

/-- The shutdown phrase. -/
def shutdownPhrase : String := "take a break"

/-- Time-query keywords. -/
def timeWords : List String := ["time", "clock", "what time"]

/-- Date-query keywords. -/
def dateWords : List String := ["date", "today", "what day"]

/-- Unit keywords of the conversion check. -/
def unitWords : List String :=
  ["celsius", "fahrenheit", "meters", "feet", "pounds", "kilograms"]

/-- The routing outcome: the handler tag of the source (`"shutdown"`,
`"local"` or `"ai"`), the response text, and the events the dispatched
handler performed. -/
structure RouteResult where
  tag : String
  response : String
  events : List Event
deriving DecidableEq, Repr

/-- `route_query` (lines 523-553): lower and strip the text, then check
shutdown phrase, time words, date words, conversions, search phrases, in
that order, defaulting to the AI path.  The source dispatches the handler
inside the same function, so the dispatched handler's actions are part of
the result. -/
def route_query (env : Env) (text : String) : RouteResult :=
  let textLower := pyStrip (pyLower text)
  if strHas textLower shutdownPhrase then ⟨"shutdown", "Okay, bye!", []⟩
  else if timeWords.any (fun w => strHas textLower w) then ⟨"local", get_time env, []⟩
  else if dateWords.any (fun w => strHas textLower w) then ⟨"local", get_date env, []⟩
  else
    match
      (if strHas textLower "convert" || unitWords.any (fun w => strHas textLower w)
       then handle_conversion text else none) with
    | some r => ⟨"local", r, []⟩
    | none =>
      if leadsWith "search".data textLower.data || strHas textLower "look up" then
        let q := pyStrip (pyReplace (pyReplace textLower "search" "") "look up" "")
        let r := web_search env q
        ⟨"local", r.1, r.2⟩
      else
        let r := query_ai_local_only env text
        ⟨"ai", r.1, r.2⟩

/-- The pure classification the spec ascribes to `CommandRouter.route`,
written from the spec's words: the category of an utterance, with no
dispatch.  Used to compare the source's `route_query` against the spec's
side-effect-free router. -/
def routeCategory (text : String) : String :=
  let textLower := pyStrip (pyLower text)
  if strHas textLower shutdownPhrase then "shutdown"
  else if timeWords.any (fun w => strHas textLower w) then "local"
  else if dateWords.any (fun w => strHas textLower w) then "local"
  else
    match
      (if strHas textLower "convert" || unitWords.any (fun w => strHas textLower w)
       then handle_conversion text else none) with
    | some _ => "local"
    | none =>
      if leadsWith "search".data textLower.data || strHas textLower "look up" then "local"
      else "ai"

/-- How one handled turn leaves the controller. -/
inductive TurnOutcome where
  | backToListening
  | shutdownNow
  | outOfFuel
deriving DecidableEq, Repr

/-- `handle_voice_command` (lines 696-748): acknowledge, record, route,
speak; on interruption of the response the handler recurses to take the
next command (modelled with explicit recursion depth).  Every error path of
the source is caught inside the call, so the call always returns control to
the wake-word loop unless the shutdown route fired. -/
def handle_voice_command (env : Env) : Nat → TurnOutcome × List Event
  | 0 => (.outOfFuel, [])
  | fuel + 1 =>
    let pre := [Event.speakEv "Yes?", Event.recordEv 5]
    match env.commandAudio with
    | none => (.backToListening, pre ++ [Event.speakEv "I didn\x27t hear anything"])
    | some t =>
      if t = "" then (.backToListening, pre ++ [Event.speakEv "I couldn\x27t understand that"])
      else
        let rr := route_query env t
        if rr.tag = "shutdown" then
          (.shutdownNow, pre ++ rr.events ++ [Event.speakEv rr.response])
        else
          let sp := speak env rr.response true
          if sp.1 then
            let nxt := handle_voice_command env fuel
            (nxt.1, pre ++ rr.events ++ sp.2 ++ nxt.2)
          else
            (.backToListening, pre ++ rr.events ++ sp.2)

/-- What a successfully opened wake-word stream session ends with: the wake
word, the shutdown phrase, or a read error (which makes
`listen_for_wake_word` close the stream and return `False`, lines 674-682). -/
inductive InnerOutcome where
  | wakeHeard
  | shutdownHeard
  | readFailed
deriving DecidableEq, Repr

/-- Result of one `listen_for_wake_word` call. -/
inductive WakeResult where
  | wakeDetected
  | shutdownDetected
  | failed
deriving DecidableEq, Repr

/-- Result record of the call: outcome, the oracle cursors for the next
call, and the observable events (device-open attempts and backoff sleeps). -/
structure WakeCall where
  result : WakeResult
  nextOpen : Nat
  nextSession : Nat
  events : List Event
deriving DecidableEq, Repr

/-- The stream-open retry loop of `listen_for_wake_word` (lines 632-644):
up to `n` attempts against the device oracle (indexed by a global attempt
counter), sleeping one second after each failed attempt. -/
def openAttempts (device : Nat → Bool) : Nat → Nat → Bool × Nat × List Event
  | 0, idx => (false, idx, [])
  | n + 1, idx =>
    if device idx then (true, idx + 1, [Event.openAttemptEv])
    else
      let r := openAttempts device n (idx + 1)
      (r.1, r.2.1, Event.openAttemptEv :: Event.sleepEv 10 :: r.2.2)

/-- `listen_for_wake_word` (lines 621-694): three open attempts; when all
fail the function prints a diagnostic and returns `False` to the caller
(line 646-648) — the outer `max_retries` loop is not reached on this path,
since it only re-runs after an exception inside the `try` block.  A
successfully opened session ends with whatever the recognition oracle
produces: wake word (`True`), shutdown phrase (`"shutdown"`), or a read
error (`False`). -/
def listen_for_wake_word (device : Nat → Bool) (inner : Nat → InnerOutcome)
    (oIdx sIdx : Nat) : WakeCall :=
  let opened := openAttempts device 3 oIdx
  if opened.1 = false then ⟨.failed, opened.2.1, sIdx, opened.2.2⟩
  else
    match inner sIdx with
    | .wakeHeard => ⟨.wakeDetected, opened.2.1, sIdx + 1, opened.2.2⟩
    | .shutdownHeard => ⟨.shutdownDetected, opened.2.1, sIdx + 1, opened.2.2⟩
    | .readFailed => ⟨.failed, opened.2.1, sIdx + 1, opened.2.2⟩

/-- Whether the main loop of `run` has terminated. -/
inductive RunState where
  | stillRunning
  | shutdownExit
deriving DecidableEq, Repr

/-- The main loop of `run` (lines 784-801), observed for `fuel`
iterations: a shutdown result exits; a wake detection handles the command
and loops; a failed listen call — including the exhausted device-open
retries — falls through the `elif` chain and loops as well.  The handled
turn is abstracted here because its outcome does not influence whether the
loop continues. -/
def runLoop (device : Nat → Bool) (inner : Nat → InnerOutcome) : Nat → Nat → Nat → RunState
  | 0, _, _ => .stillRunning
  | fuel + 1, oIdx, sIdx =>
    let w := listen_for_wake_word device inner oIdx sIdx
    match w.result with
    | .shutdownDetected => .shutdownExit
    | .wakeDetected => runLoop device inner fuel w.nextOpen w.nextSession
    | .failed => runLoop device inner fuel w.nextOpen w.nextSession

/-- Number of HTTP requests (GET or POST) in an event list. -/
def httpEventCount (evs : List Event) : Nat :=
  (evs.filter (fun e =>
    match e with
    | .httpPostEv _ => true
    | .httpGetEv _ => true
    | _ => false)).length

/-- Number of device-open attempts in an event list. -/
def openAttemptCount (evs : List Event) : Nat :=
  (evs.filter (fun e =>
    match e with
    | .openAttemptEv => true
    | _ => false)).length

/-- The words of a text: maximal runs of characters that are neither
whitespace nor sentence punctuation. -/
def wordsPW (s : String) : List (List Char) := tokensBy pwChar s.data

/-- An AI call that fails: the POST raised, the body was malformed, or the
status was not 200. -/
def aiFailure (env : Env) : Prop :=
  env.aiLocal = .raised ∨ env.aiLocal = .ok 200 none ∨
    ∃ s c, env.aiLocal = .ok s c ∧ s ≠ 200

/-- An environment whose oracles are all inert: no transcripts, failing AI
calls, no interruption. -/
def inertEnv : Env := {
  nowTime := ""
  nowDate := ""
  permissionAudio := none
  choiceAudio := none
  commandAudio := none
  aiLocal := .raised
  aiUnrestricted := .raised
  search := .raised
  browserOk := false
  flagAt := none
  segDur := fun _ => 1 }

/-- Turn used against C1: the local-only model replies that it needs online
resources and the user denies permission. -/
def c1Env : Env := { inertEnv with
  permissionAudio := some "no"
  aiLocal := .ok 200 (some "I need online resources to answer that properly.") }

/-- Turn used against C2: the AI POST raises. -/
def c2Env : Env := { inertEnv with aiLocal := .raised }

/-- Environment for the C4 witness. -/
def c4Env : Env := inertEnv

/-- Environment for the C5 witness: an unclear permission transcript. -/
def c5Env : Env := { inertEnv with permissionAudio := some "maybe" }

/-- Environment for the C6 witness: the wake word is heard at poll 7 while
each segment takes 5 polls. -/
def c6Env : Env := { inertEnv with flagAt := some 7, segDur := fun _ => 5 }

/-- Two-segment response text for the C6 witness. -/
def c6Text : String := "alpha beta gamma delta epsilon. one two three four five."

/-- Environment for the C7 witness: the recorded command is the conversion
utterance. -/
def c7Env : Env := { inertEnv with commandAudio := some "what is 32 fahrenheit in celsius" }

/-- Environment for the C8 witness: an AI-bound command whose POST raises. -/
def c8Env : Env := { inertEnv with
  commandAudio := some "explain quantum computing"
  aiLocal := .raised }

/-- Environment for the C9 witness. -/
def c9Env : Env := inertEnv

/-- The events of `n` consecutive failed device-open attempts: an attempt
followed by a one-second backoff sleep, `n` times. -/
def openFailEvents : Nat → List Event
  | 0 => []
  | n + 1 => Event.openAttemptEv :: Event.sleepEv 10 :: openFailEvents n

theorem leadsWith_iff (sub l : List Char) : leadsWith sub l = true ↔ ∃ r, l = sub ++ r := by
  induction sub generalizing l with
  | nil => simp [leadsWith]
  | cons a as ih =>
    cases l with
    | nil => simp [leadsWith]
    | cons b bs =>
      simp only [leadsWith, Bool.and_eq_true, beq_iff_eq, ih, List.cons_append, List.cons.injEq]
      constructor
      · rintro ⟨rfl, r, rfl⟩
        exact ⟨r, rfl, rfl⟩
      · rintro ⟨r, rfl, rfl⟩
        exact ⟨rfl, r, rfl⟩

theorem hasSegment_iff (sub l : List Char) :
    hasSegment sub l = true ↔ ∃ a b, l = a ++ sub ++ b := by
  induction l with
  | nil =>
    simp only [hasSegment, leadsWith_iff]
    constructor
    · rintro ⟨r, hr⟩
      exact ⟨[], r, by simpa using hr⟩
    · rintro ⟨a, b, h⟩
      rcases List.append_eq_nil.mp h.symm with ⟨h1, h2⟩
      rcases List.append_eq_nil.mp h1 with ⟨rfl, rfl⟩
      exact ⟨b, by simp [h2]⟩
  | cons c t ih =>
    simp only [hasSegment, Bool.or_eq_true, leadsWith_iff, ih]
    constructor
    · rintro (⟨r, hr⟩ | ⟨a, b, rfl⟩)
      · exact ⟨[], r, by simpa using hr⟩
      · exact ⟨c :: a, b, by simp⟩
    · rintro ⟨a, b, h⟩
      cases a with
      | nil => exact Or.inl ⟨b, by simpa using h⟩
      | cons x a' =>
        rcases List.cons.injEq .. ▸ h with ⟨rfl, h2⟩
        exact Or.inr ⟨a', b, by simpa using h2⟩

theorem hasSegment_map (f : Char → Char) (sub l : List Char) (h : hasSegment sub l = true) :
    hasSegment (sub.map f) (l.map f) = true := by
  rcases (hasSegment_iff sub l).mp h with ⟨a, b, rfl⟩
  exact (hasSegment_iff _ _).mpr ⟨a.map f, b.map f, by simp⟩

theorem hasSegment_dropWhile (p : Char → Bool) (x : Char) (xs l : List Char)
    (hp : p x = false) (h : hasSegment (x :: xs) l = true) :
    hasSegment (x :: xs) (l.dropWhile p) = true := by
  rcases (hasSegment_iff _ _).mp h with ⟨a, b, rfl⟩
  clear h
  induction a with
  | nil =>
    rw [List.nil_append, List.cons_append, List.dropWhile_cons]
    simp only [hp, Bool.false_eq_true, if_false]
    exact (hasSegment_iff _ _).mpr ⟨[], b, by simp⟩
  | cons y a' ih =>
    simp only [List.cons_append, List.append_assoc] at ih ⊢
    rw [List.dropWhile_cons]
    by_cases hy : p y = true
    · simpa [hy] using ih
    · simp only [hy, Bool.false_eq_true, if_false]
      exact (hasSegment_iff _ _).mpr ⟨y :: a', b, by simp⟩

theorem hasSegment_reverse (sub l : List Char) (h : hasSegment sub l = true) :
    hasSegment sub.reverse l.reverse = true := by
  rcases (hasSegment_iff _ _).mp h with ⟨a, b, rfl⟩
  refine (hasSegment_iff _ _).mpr ⟨b.reverse, a.reverse, ?_⟩
  simp

theorem hasSegment_pyStripL (s0 : Char) (s : List Char) (hp : wsChar s0 = false)
    (e0 : Char) (e : List Char) (hrev : (s0 :: s).reverse = e0 :: e) (he : wsChar e0 = false)
    (l : List Char) (h : hasSegment (s0 :: s) l = true) :
    hasSegment (s0 :: s) (pyStripL l) = true := by
  have h1 := hasSegment_dropWhile wsChar s0 s l hp h
  have h2 := hasSegment_reverse _ _ h1
  rw [hrev] at h2
  have h3 := hasSegment_dropWhile wsChar e0 e _ he h2
  have h4 := hasSegment_reverse _ _ h3
  rw [← hrev, List.reverse_reverse] at h4
  exact h4

/-- C4: for every utterance containing the shutdown phrase "take a break"
as a substring, `route_query` returns the shutdown decision with the
farewell response, regardless of surrounding text, because the shutdown
check is the first category in the fixed priority order. -/
theorem route_query_shutdown_first (env : Env) (text : String)
    (h : hasSegment shutdownPhrase.data text.data = true) :
    (route_query env text).tag = "shutdown" ∧ (route_query env text).response = "Okay, bye!" := by
  have hlow : hasSegment shutdownPhrase.data (text.data.map Char.toLower) = true := by
    have hm := hasSegment_map Char.toLower _ _ h
    rwa [show shutdownPhrase.data.map Char.toLower = shutdownPhrase.data from by decide] at hm
  have hstrip : hasSegment shutdownPhrase.data (pyStripL (text.data.map Char.toLower)) = true := by
    rw [show shutdownPhrase.data = 't' :: "ake a break".data from by decide] at hlow ⊢
    exact hasSegment_pyStripL 't' "ake a break".data (by decide) 'k' "aerb a ekat".data
      (by decide) (by decide) _ hlow
  have hcond : strHas (pyStrip (pyLower text)) shutdownPhrase = true := hstrip
  simp [route_query, hcond]

theorem route_query_shutdown_first_witness :
    hasSegment shutdownPhrase.data "please take a break now".data = true ∧
    ((route_query c4Env "please take a break now").tag = "shutdown" ∧
      (route_query c4Env "please take a break now").response = "Okay, bye!") :=
  ⟨by decide, route_query_shutdown_first c4Env "please take a break now" (by decide)⟩

/-- C9: a call `speak(text, allowInterruption)` with `text` shorter than
the 100-character threshold, or with interruption disallowed, plays the
text as a single non-interruptible unit and returns `wasInterrupted =
false`. -/
theorem speak_short_non_interruptible (env : Env) (text : String) (allow : Bool)
    (h : text.length < 100 ∨ allow = false) :
    speak env text allow = (false, [Event.speakEv text]) := by
  unfold speak
  rcases h with h | h
  · rw [if_pos (Or.inr h)]
  · rw [if_pos (Or.inl h)]

theorem speak_short_non_interruptible_witness :
    speak c9Env "Yes?" true = (false, [Event.speakEv "Yes?"]) :=
  speak_short_non_interruptible c9Env "Yes?" true (Or.inl (by decide))

/-- C2 (amended): the category `route_query` assigns is a pure function of
the utterance text — it coincides with the side-effect-free classifier
`routeCategory` for every environment, so two runs on the same utterance
always classify it identically.  The dispatch performed inside
`route_query` is *not* side-effect free (see the counterexample). -/
theorem route_query_tag_pure (env : Env) (text : String) :
    (route_query env text).tag = routeCategory text := by
  unfold route_query routeCategory
  dsimp only
  split_ifs <;> try rfl
  all_goals first
  | rfl
  | (cases handle_conversion text <;> rfl)

/-- C2 counterexample: on the utterance "explain quantum computing" the
router's dispatch issues an HTTP POST, so `route_query` is not free of
network side effects. -/
theorem route_query_side_effects_cex :
    (route_query c2Env "explain quantum computing").events ≠ [] ∧
    Event.httpPostEv chatUrl ∈ (route_query c2Env "explain quantum computing").events := by
  decide

/-- The permission gate's observable actions are the fixed question and a
three-second recording, whatever the transcript oracle returns. -/
theorem request_online_permission_events (env : Env) :
    (request_online_permission env).2 =
      [Event.speakEv permissionQuestion, Event.recordEv 3] := by
  unfold request_online_permission
  cases env.permissionAudio with
  | none => rfl
  | some t => cases h : classifyResponse (pyStrip (pyLower t)) <;> simp [h]

/-- C1 (amended): on the AI route the local-only POST is issued *before*
any permission gate; the gate runs only when the model asks for online
resources, and then a denial (or unclear answer) prevents the second,
unrestricted request: exactly one HTTP request is issued in total and the
spoken response is the fixed stay-local message of `query_ai_local_only`. -/
theorem query_ai_gate_denied (env : Env) (text : String) (c : String)
    (h1 : env.aiLocal = .ok 200 (some c))
    (h2 : strHas (pyStrip c) needOnlineMarker = true)
    (h3 : (request_online_permission env).1 = false) :
    (query_ai_local_only env text).1 = stickLocalMsg ∧
    httpEventCount (query_ai_local_only env text).2 = 1 := by
  constructor
  · simp [query_ai_local_only, h1, h2, h3]
  · simp [query_ai_local_only, h1, h2, h3, request_online_permission_events, httpEventCount]

theorem query_ai_gate_denied_witness :
    (query_ai_local_only c1Env "explain quantum computing").1 = stickLocalMsg ∧
    httpEventCount (query_ai_local_only c1Env "explain quantum computing").2 = 1 :=
  query_ai_gate_denied c1Env "explain quantum computing"
    "I need online resources to answer that properly." rfl (by decide) (by decide)

/-- C1 counterexample: the utterance "explain quantum computing" is routed
to the AI, the permission transcript "no" resolves to Denied, and yet an
HTTP POST appears among the turn's events (it was issued before the gate),
and the final response is not the "staying local" message. -/
theorem c1_http_before_gate_cex :
    (route_query c1Env "explain quantum computing").tag = "ai" ∧
    classifyResponse (pyStrip (pyLower "no")) = .denied ∧
    Event.httpPostEv chatUrl ∈ (route_query c1Env "explain quantum computing").events ∧
    (route_query c1Env "explain quantum computing").response ≠ stayLocalMsg := by
  decide

/-- C5: the gate classifies "yes"/"sure"/"go ahead" as Granted,
"no"/"nope"/"cancel" as Denied, and ""/"maybe"/"hmm" (including an empty
transcription) as Unclear; any non-granted classification makes
`request_online_permission` return `false`, a `false` gate result keeps
`web_search` free of HTTP requests, and an Unclear transcript leads to
exactly the same `web_search` behaviour as a Denied one. -/
theorem permission_gate_classification :
    (classifyResponse "yes" = .granted ∧ classifyResponse "sure" = .granted ∧
      classifyResponse "go ahead" = .granted) ∧
    (classifyResponse "no" = .denied ∧ classifyResponse "nope" = .denied ∧
      classifyResponse "cancel" = .denied) ∧
    (classifyResponse "" = .unclear ∧ classifyResponse "maybe" = .unclear ∧
      classifyResponse "hmm" = .unclear) ∧
    (∀ (env : Env) (t : String), env.permissionAudio = some t →
      classifyResponse (pyStrip (pyLower t)) ≠ .granted →
      (request_online_permission env).1 = false) ∧
    (∀ (env : Env) (q : String), (request_online_permission env).1 = false →
      httpEventCount (web_search env q).2 = 0) ∧
    (∀ (env : Env) (q t1 t2 : String), classifyResponse (pyStrip (pyLower t1)) = .unclear →
      classifyResponse (pyStrip (pyLower t2)) = .denied →
      web_search { env with permissionAudio := some t1 } q =
        web_search { env with permissionAudio := some t2 } q) := by
  refine ⟨by decide, by decide, by decide, ?_, ?_, ?_⟩
  · intro env t h1 h2
    unfold request_online_permission
    rw [h1]
    cases h : classifyResponse (pyStrip (pyLower t)) with
    | granted => exact absurd h h2
    | denied => simp [h]
    | unclear => simp [h]
  · intro env q h
    unfold web_search
    simp only [h, if_pos]
    rw [request_online_permission_events]
    decide
  · intro env q t1 t2 h1 h2
    have e1 : request_online_permission { env with permissionAudio := some t1 } =
        (false, [Event.speakEv permissionQuestion, Event.recordEv 3]) := by
      unfold request_online_permission
      simp [h1]
    have e2 : request_online_permission { env with permissionAudio := some t2 } =
        (false, [Event.speakEv permissionQuestion, Event.recordEv 3]) := by
      unfold request_online_permission
      simp [h2]
    unfold web_search
    rw [e1, e2]
    rfl

theorem permission_gate_classification_witness :
    (request_online_permission c5Env).1 = false ∧
    httpEventCount (web_search c5Env "capital of france").2 = 0 :=
  ⟨permission_gate_classification.2.2.2.1 c5Env "maybe" rfl (by decide),
   permission_gate_classification.2.2.2.2.1 c5Env "capital of france"
     (permission_gate_classification.2.2.2.1 c5Env "maybe" rfl (by decide))⟩

/-- A short (or non-interruptible) call to `speak` is a single espeak run
that reports no interruption. -/
theorem speak_short_eq (env : Env) (text : String) (allow : Bool)
    (h : text.length < 100 ∨ allow = false) :
    speak env text allow = (false, [Event.speakEv text]) := by
  unfold speak
  rcases h with h | h
  · rw [if_pos (Or.inr h)]
  · rw [if_pos (Or.inl h)]

/-- C7: the utterance "what is 32 fahrenheit in celsius" is routed to the
local conversion handler, which answers exactly
"32.0 degrees Fahrenheit is 0.0 degrees Celsius" with no events — in
particular no permission request and no HTTP request — and the controller
speaks that answer and returns to listening. -/
theorem conversion_end_to_end (env : Env)
    (h : env.commandAudio = some "what is 32 fahrenheit in celsius") :
    route_query env "what is 32 fahrenheit in celsius" =
      ⟨"local", "32.0 degrees Fahrenheit is 0.0 degrees Celsius", []⟩ ∧
    handle_voice_command env 1 =
      (.backToListening,
        [Event.speakEv "Yes?", Event.recordEv 5,
         Event.speakEv "32.0 degrees Fahrenheit is 0.0 degrees Celsius"]) := by
  constructor
  · rfl
  · unfold handle_voice_command
    rw [h]
    rfl

theorem conversion_end_to_end_witness :
    route_query c7Env "what is 32 fahrenheit in celsius" =
      ⟨"local", "32.0 degrees Fahrenheit is 0.0 degrees Celsius", []⟩ ∧
    handle_voice_command c7Env 1 =
      (.backToListening,
        [Event.speakEv "Yes?", Event.recordEv 5,
         Event.speakEv "32.0 degrees Fahrenheit is 0.0 degrees Celsius"]) :=
  conversion_end_to_end c7Env rfl

/-- Every failing AI call produces one of the two fixed apologies and
consists of exactly the one attempted POST. -/
theorem ai_failure_response (env : Env) (text : String) (h : aiFailure env) :
    ((query_ai_local_only env text).1 = apologyError ∨
      (query_ai_local_only env text).1 = apologyBadStatus) ∧
    (query_ai_local_only env text).2 = [Event.httpPostEv chatUrl] := by
  unfold query_ai_local_only
  rcases h with h | h | ⟨s, c, h, hs⟩ <;> rw [h]
  · exact ⟨Or.inl rfl, rfl⟩
  · exact ⟨Or.inl rfl, rfl⟩
  · dsimp only
    rw [if_neg hs]
    exact ⟨Or.inr rfl, rfl⟩

/-- On the AI route, the routed response and events are those of
`query_ai_local_only`. -/
theorem route_query_ai_parts (env : Env) (text : String)
    (h : (route_query env text).tag = "ai") :
    (route_query env text).response = (query_ai_local_only env text).1 ∧
    (route_query env text).events = (query_ai_local_only env text).2 := by
  unfold route_query at h ⊢
  dsimp only at h ⊢
  split_ifs at h ⊢ <;> try exact ⟨rfl, rfl⟩
  all_goals first
  | exact absurd h (by decide)
  | (cases hc : handle_conversion text <;> simp_all)

/-- C8: when a remote AI call fails (the POST raised, a non-200 status, or
a malformed body), the controller speaks one of the fixed apologies and
returns to listening; no failure escapes the controller or ends the run. -/
theorem ai_failure_recovery (env : Env) (t : String) (fuel : Nat)
    (hc : env.commandAudio = some t) (hne : ¬t = "")
    (htag : (route_query env t).tag = "ai")
    (hf : aiFailure env) :
    (handle_voice_command env (fuel + 1)).1 = .backToListening ∧
    (Event.speakEv apologyError ∈ (handle_voice_command env (fuel + 1)).2 ∨
      Event.speakEv apologyBadStatus ∈ (handle_voice_command env (fuel + 1)).2) := by
  obtain ⟨hresp, _⟩ := route_query_ai_parts env t htag
  obtain ⟨hapol, _⟩ := ai_failure_response env t hf
  have hsp : speak env (route_query env t).response true =
      (false, [Event.speakEv (route_query env t).response]) := by
    apply speak_short_eq
    rcases hapol with h | h
    · rw [hresp, h]; exact Or.inl (by decide)
    · rw [hresp, h]; exact Or.inl (by decide)
  have hshut : ¬(route_query env t).tag = "shutdown" := by
    rw [htag]; decide
  unfold handle_voice_command
  rw [hc]
  dsimp only
  rw [if_neg hne, if_neg hshut, hsp]
  dsimp only
  constructor
  · rfl
  · rcases hapol with h | h
    · exact Or.inl (by rw [hresp, h]; simp)
    · exact Or.inr (by rw [hresp, h]; simp)

theorem ai_failure_recovery_witness :
    (handle_voice_command c8Env 1).1 = .backToListening ∧
    (Event.speakEv apologyError ∈ (handle_voice_command c8Env 1).2 ∨
      Event.speakEv apologyBadStatus ∈ (handle_voice_command c8Env 1).2) :=
  ai_failure_recovery c8Env "explain quantum computing" 0 rfl (by decide) (by decide)
    (Or.inl rfl)

/-- Against a device that never opens, the retry loop performs all its
attempts (with a backoff sleep after each) and reports failure. -/
theorem openAttempts_fail (device : Nat → Bool) (h : ∀ k, device k = false) :
    ∀ n idx, openAttempts device n idx = (false, idx + n, openFailEvents n) := by
  intro n
  induction n with
  | zero => intro idx; rfl
  | succ n ih =>
    intro idx
    unfold openAttempts
    rw [h idx]
    simp only [Bool.false_eq_true, if_false, ih (idx + 1), openFailEvents]
    rw [show idx + 1 + n = idx + (n + 1) from by omega]

/-- C3 (amended): when the audio device persistently fails to open, one
`listen_for_wake_word` call makes exactly three open attempts with a
one-second backoff after each, then gives up and reports failure to its
caller — but the `run` loop does not abort: it re-invokes the listener and
is still running after any number of iterations. -/
theorem wake_open_retry_bounded_run_loops (device : Nat → Bool) (inner : Nat → InnerOutcome)
    (oIdx sIdx fuel : Nat) (h : ∀ k, device k = false) :
    (listen_for_wake_word device inner oIdx sIdx).result = .failed ∧
    (listen_for_wake_word device inner oIdx sIdx).events =
      [Event.openAttemptEv, Event.sleepEv 10, Event.openAttemptEv, Event.sleepEv 10,
       Event.openAttemptEv, Event.sleepEv 10] ∧
    openAttemptCount (listen_for_wake_word device inner oIdx sIdx).events = 3 ∧
    runLoop device inner fuel oIdx sIdx = .stillRunning := by
  have hl : ∀ o s, listen_for_wake_word device inner o s =
      ⟨.failed, o + 3, s, openFailEvents 3⟩ := by
    intro o s
    unfold listen_for_wake_word
    rw [openAttempts_fail device h 3 o]
    rfl
  refine ⟨by rw [hl], by rw [hl]; rfl, by rw [hl]; rfl, ?_⟩
  induction fuel generalizing oIdx sIdx with
  | zero => rfl
  | succ n ih =>
    unfold runLoop
    rw [hl oIdx sIdx]
    exact ih (oIdx + 3) sIdx

theorem wake_open_retry_bounded_run_loops_witness :
    (listen_for_wake_word (fun _ => false) (fun _ => .readFailed) 0 0).result = .failed ∧
    (listen_for_wake_word (fun _ => false) (fun _ => .readFailed) 0 0).events =
      [Event.openAttemptEv, Event.sleepEv 10, Event.openAttemptEv, Event.sleepEv 10,
       Event.openAttemptEv, Event.sleepEv 10] ∧
    openAttemptCount (listen_for_wake_word (fun _ => false) (fun _ => .readFailed) 0 0).events = 3 ∧
    runLoop (fun _ => false) (fun _ => .readFailed) 7 0 0 = .stillRunning :=
  wake_open_retry_bounded_run_loops (fun _ => false) (fun _ => .readFailed) 0 0 7
    (fun _ => rfl)

/-- C3 counterexample: with a device that always fails to open, the listen
call reports failure (the retries are exhausted), yet after twenty-five
further iterations of the main loop the run is still going — it never
aborts. -/
theorem run_never_aborts_cex :
    (listen_for_wake_word (fun _ => false) (fun _ => .wakeHeard) 0 0).result = .failed ∧
    runLoop (fun _ => false) (fun _ => .wakeHeard) 25 0 0 = .stillRunning := by
  decide

/-- Core of the interruption property: when the flag time `f` falls before
the time at which the segment sequence would finish, the loop ends at or
after the flag time (so the interruption queue is non-empty), and every
started segment started strictly before the flag time. -/
theorem runSegments_flagged (f : Nat) :
    ∀ (ds : List Nat) (t : Nat), f < t + ds.sum →
      f ≤ (runSegments (some f) ds t).2 ∧
      ∀ j < (runSegments (some f) ds t).1, t + (ds.take j).sum < f := by
  intro ds
  induction ds with
  | nil =>
    intro t ht
    simp only [List.sum_nil, Nat.add_zero] at ht
    exact ⟨Nat.le_of_lt ht, fun j hj => absurd hj (by simp [runSegments])⟩
  | cons d rest ih =>
    intro t ht
    unfold runSegments
    by_cases h1 : flagBool (some f) t = true
    · rw [if_pos h1]
      have hft : f ≤ t := by simpa [flagBool] using h1
      exact ⟨hft, fun j hj => absurd hj (by omega)⟩
    · rw [if_neg h1]
      have hft : t < f := by
        simp only [flagBool, decide_eq_true_eq] at h1
        omega
      by_cases h2 : flagBool (some f) (t + d) = true
      · rw [if_pos h2]
        refine ⟨by simp, ?_⟩
        intro j hj
        have : j = 0 := by omega
        subst this
        simpa using hft
      · rw [if_neg h2]
        have hfd : t + d < f := by
          simp only [flagBool, decide_eq_true_eq] at h2
          omega
        have ihh := ih (t + d) (by simp only [List.sum_cons] at ht; omega)
        dsimp only
        refine ⟨ihh.1, ?_⟩
        intro j hj
        cases j with
        | zero => simpa using hft
        | succ j' =>
          have hj' : j' < (runSegments (some f) rest (t + d)).1 := by omega
          have := ihh.2 j' hj'
          simp only [List.take_succ_cons, List.sum_cons]
          omega

/-- C6: if the shared cancellation flag is set (at poll time `f`) before
the last segment of an interruptible `speak` call completes, the call
reports `wasInterrupted = true`, and every segment whose playback was
started began strictly before the flag was set — no segment after the
flagged one is ever played. -/
theorem interruption_stops_segments (env : Env) (text : String) (f : Nat)
    (hf : env.flagAt = some f)
    (hlt : f < (speakSegDurations env text).sum) :
    (speak_with_interruption env text).1 = true ∧
    ∀ j < segmentsStarted env text, ((speakSegDurations env text).take j).sum < f := by
  have key := runSegments_flagged f (speakSegDurations env text) 0 (by omega)
  constructor
  · unfold speak_with_interruption
    dsimp only
    rw [hf]
    simp only [flagBool, decide_eq_true_eq]
    exact key.1
  · intro j hj
    unfold segmentsStarted at hj
    rw [hf] at hj
    have := key.2 j hj
    omega

theorem interruption_stops_segments_witness :
    c6Env.flagAt = some 7 ∧
    ((speak_with_interruption c6Env c6Text).1 = true ∧
      ∀ j < segmentsStarted c6Env c6Text,
        ((speakSegDurations c6Env c6Text).take j).sum < 7) :=
  ⟨rfl, interruption_stops_segments c6Env c6Text 7 rfl (by decide)⟩

theorem tokensBy_cons_pos (p : Char → Bool) (c : Char) (t : List Char) (h : p c = true) :
    tokensBy p (c :: t) = tokensBy p t := by
  simp only [tokensBy, h, if_true]

theorem tokensBy_cons_neg (p : Char → Bool) (c : Char) (t : List Char) (h : p c = false) :
    tokensBy p (c :: t) =
      (c :: t.takeWhile (fun d => !p d)) :: tokensBy p (t.dropWhile (fun d => !p d)) := by
  induction t generalizing c with
  | nil => simp [tokensBy, h]
  | cons d t' ih =>
    by_cases hd : p d = true
    · simp only [tokensBy, h, hd, Bool.false_eq_true, if_false, if_true,
        List.takeWhile_cons, List.dropWhile_cons, Bool.not_true]
    · have hd' : p d = false := by simpa using hd
      have ihd := ih d hd'
      simp only [tokensBy, h, hd', Bool.false_eq_true, if_false,
        List.takeWhile_cons, List.dropWhile_cons, Bool.not_false, if_true] at ihd ⊢
      rw [ihd]

theorem tokensBy_of_allP (p : Char → Bool) :
    ∀ l, (∀ c ∈ l, p c = true) → tokensBy p l = [] := by
  intro l h
  induction l with
  | nil => rfl
  | cons c t ih =>
    rw [tokensBy_cons_pos p c t (h c (by simp))]
    exact ih fun d hd => h d (by simp [hd])

theorem takeWhile_append_drop_nil (q : Char → Bool) :
    ∀ (a z : List Char), a.dropWhile q = [] → (a ++ z).takeWhile q = a ++ z.takeWhile q := by
  intro a
  induction a with
  | nil => intro z _; rfl
  | cons y a' ih =>
    intro z h
    rw [List.dropWhile_cons] at h
    by_cases hy : q y = true
    · rw [if_pos hy] at h
      rw [List.cons_append, List.takeWhile_cons, if_pos hy, ih z h, List.cons_append]
    · rw [if_neg hy] at h
      exact absurd h (by simp)

theorem dropWhile_append_drop_nil (q : Char → Bool) :
    ∀ (a z : List Char), a.dropWhile q = [] → (a ++ z).dropWhile q = z.dropWhile q := by
  intro a
  induction a with
  | nil => intro z _; rfl
  | cons y a' ih =>
    intro z h
    rw [List.dropWhile_cons] at h
    by_cases hy : q y = true
    · rw [if_pos hy] at h
      rw [List.cons_append, List.dropWhile_cons, if_pos hy, ih z h]
    · rw [if_neg hy] at h
      exact absurd h (by simp)

theorem takeWhile_append_drop_ne (q : Char → Bool) :
    ∀ (a z : List Char), a.dropWhile q ≠ [] → (a ++ z).takeWhile q = a.takeWhile q := by
  intro a
  induction a with
  | nil => intro z h; exact absurd rfl h
  | cons y a' ih =>
    intro z h
    rw [List.dropWhile_cons] at h
    by_cases hy : q y = true
    · rw [if_pos hy] at h
      rw [List.cons_append, List.takeWhile_cons, if_pos hy, ih z h, List.takeWhile_cons,
        if_pos hy]
    · rw [List.cons_append, List.takeWhile_cons, if_neg hy, List.takeWhile_cons, if_neg hy]

theorem dropWhile_append_drop_ne (q : Char → Bool) :
    ∀ (a z : List Char), a.dropWhile q ≠ [] → (a ++ z).dropWhile q = a.dropWhile q ++ z := by
  intro a
  induction a with
  | nil => intro z h; exact absurd rfl h
  | cons y a' ih =>
    intro z h
    rw [List.dropWhile_cons] at h
    by_cases hy : q y = true
    · rw [if_pos hy] at h
      rw [List.cons_append, List.dropWhile_cons, if_pos hy, ih z h, List.dropWhile_cons,
        if_pos hy]
    · rw [List.cons_append, List.dropWhile_cons, if_neg hy, List.dropWhile_cons, if_neg hy,
        List.cons_append]

theorem length_dropWhile_le' (q : Char → Bool) (l : List Char) :
    (l.dropWhile q).length ≤ l.length := by
  induction l with
  | nil => simp
  | cons c t ih =>
    rw [List.dropWhile_cons]
    split_ifs
    · exact Nat.le_trans ih (Nat.le_succ _)
    · exact Nat.le_refl _

theorem tokensBy_append_sep (p : Char → Bool) (c : Char) (hc : p c = true) :
    ∀ (n : Nat) (a b : List Char), a.length ≤ n →
      tokensBy p (a ++ c :: b) = tokensBy p a ++ tokensBy p b := by
  intro n
  induction n with
  | zero =>
    intro a b ha
    have : a = [] := by cases a <;> simp_all
    subst this
    rw [List.nil_append, tokensBy_cons_pos p c b hc]
    rfl
  | succ n ih =>
    intro a b ha
    cases a with
    | nil =>
      rw [List.nil_append, tokensBy_cons_pos p c b hc]
      rfl
    | cons x a' =>
      have ha' : a'.length ≤ n := by simpa using Nat.lt_succ_iff.mp (Nat.lt_of_lt_of_le (by simp) ha)
      by_cases hx : p x = true
      · rw [List.cons_append, tokensBy_cons_pos p x _ hx, tokensBy_cons_pos p x a' hx,
          ih a' b ha']
      · have hx' : p x = false := by simpa using hx
        rw [List.cons_append, tokensBy_cons_neg p x _ hx', tokensBy_cons_neg p x a' hx']
        by_cases hda : a'.dropWhile (fun d => !p d) = []
        · rw [takeWhile_append_drop_nil _ a' (c :: b) hda,
            dropWhile_append_drop_nil _ a' (c :: b) hda]
          rw [List.takeWhile_cons, if_neg (by simp [hc]), List.dropWhile_cons,
            if_neg (by simp [hc])]
          have hta : a'.takeWhile (fun d => !p d) = a' := by
            conv_rhs => rw [← List.takeWhile_append_dropWhile (fun d => !p d) a', hda]
            rw [List.append_nil]
          rw [hta, hda, tokensBy_cons_pos p c b hc, List.append_nil]
          rfl
        · rw [takeWhile_append_drop_ne _ a' (c :: b) hda,
            dropWhile_append_drop_ne _ a' (c :: b) hda,
            ih (a'.dropWhile (fun d => !p d)) b
              (Nat.le_trans (length_dropWhile_le' _ a') ha')]
          simp

theorem tokensBy_mid_sep (p : Char → Bool) (c : Char) (hc : p c = true) (a b : List Char) :
    tokensBy p (a ++ c :: b) = tokensBy p a ++ tokensBy p b :=
  tokensBy_append_sep p c hc a.length a b (Nat.le_refl _)

theorem tokensBy_front_sep (p : Char → Bool) (t m : List Char)
    (h : ∀ c ∈ t, p c = true) : tokensBy p (t ++ m) = tokensBy p m := by
  induction t with
  | nil => rfl
  | cons c t' ih =>
    rw [List.cons_append, tokensBy_cons_pos p c _ (h c (by simp))]
    exact ih fun d hd => h d (by simp [hd])

theorem tokensBy_back_sep (p : Char → Bool) (m t : List Char)
    (h : ∀ c ∈ t, p c = true) : tokensBy p (m ++ t) = tokensBy p m := by
  cases t with
  | nil => rw [List.append_nil]
  | cons c t' =>
    rw [tokensBy_mid_sep p c (h c (by simp)) m t',
      tokensBy_of_allP p t' (fun d hd => h d (by simp [hd])), List.append_nil]

theorem wsChar_pwChar {c : Char} (h : wsChar c = true) : pwChar c = true := by
  simp [pwChar, h]

theorem sentPunct_pwChar {c : Char} (h : sentPunct c = true) : pwChar c = true := by
  simp [pwChar, h]

theorem tokensBy_pyStripL (l : List Char) :
    tokensBy pwChar (pyStripL l) = tokensBy pwChar l := by
  have h1 : tokensBy pwChar l = tokensBy pwChar (l.dropWhile wsChar) := by
    conv_lhs => rw [← List.takeWhile_append_dropWhile wsChar l]
    exact tokensBy_front_sep pwChar _ _
      (fun c hc => wsChar_pwChar (List.mem_takeWhile_imp hc))
  have hdecomp : l.dropWhile wsChar =
      ((l.dropWhile wsChar).reverse.dropWhile wsChar).reverse ++
        ((l.dropWhile wsChar).reverse.takeWhile wsChar).reverse := by
    conv_lhs =>
      rw [← List.reverse_reverse (l.dropWhile wsChar),
        ← List.takeWhile_append_dropWhile wsChar (l.dropWhile wsChar).reverse]
    rw [List.reverse_append]
  have h2 : tokensBy pwChar (l.dropWhile wsChar) =
      tokensBy pwChar (((l.dropWhile wsChar).reverse.dropWhile wsChar).reverse) := by
    conv_lhs => rw [hdecomp]
    exact tokensBy_back_sep pwChar _ _
      (fun c hc => wsChar_pwChar (List.mem_takeWhile_imp (List.mem_reverse.mp hc)))
  rw [h1, h2]
  rfl

theorem splitPunct_cons (c : Char) (t : List Char) :
    splitPunct (c :: t) =
      if sentPunct c = true then
        (match t with
         | [] => [] :: splitPunct t
         | d :: _ => if sentPunct d = true then splitPunct t else [] :: splitPunct t)
      else
        (match splitPunct t with
         | [] => [[c]]
         | piece :: rest => (c :: piece) :: rest) := rfl

theorem splitPunct_no_sep :
    ∀ l : List Char, l.dropWhile (fun c => !sentPunct c) = [] → splitPunct l = [l] := by
  intro l
  induction l with
  | nil => intro _; rfl
  | cons c t ih =>
    intro h
    rw [List.dropWhile_cons] at h
    by_cases hc : sentPunct c = true
    · rw [if_neg (by simp [hc])] at h
      exact absurd h (by simp)
    · have hc' : sentPunct c = false := by simpa using hc
      rw [if_pos (by simp [hc'])] at h
      rw [splitPunct_cons, if_neg (by simp [hc']), ih h]

theorem splitPunct_sep :
    ∀ (l : List Char) (d : Char) (r : List Char),
      l.dropWhile (fun c => !sentPunct c) = d :: r →
      splitPunct l = l.takeWhile (fun c => !sentPunct c) :: splitPunct (r.dropWhile sentPunct) := by
  intro l
  induction l with
  | nil => intro d r h; simp at h
  | cons c t ih =>
    intro d r h
    rw [List.dropWhile_cons] at h
    by_cases hc : sentPunct c = true
    · rw [if_neg (by simp [hc])] at h
      rcases List.cons.injEq .. ▸ h with ⟨rfl, rfl⟩
      rw [List.takeWhile_cons, if_neg (by simp [hc])]
      rw [splitPunct_cons, if_pos hc]
      cases t with
      | nil => rfl
      | cons e t' =>
        dsimp only
        by_cases he : sentPunct e = true
        · rw [if_pos he, List.dropWhile_cons, if_pos he]
          have ht : (e :: t').dropWhile (fun c => !sentPunct c) = e :: t' := by
            rw [List.dropWhile_cons, if_neg (by simp [he])]
          rw [ih e t' ht, List.takeWhile_cons, if_neg (by simp [he])]
        · have he' : sentPunct e = false := by simpa using he
          rw [if_neg (by simp [he']), List.dropWhile_cons, if_neg (by simp [he'])]
    · have hc' : sentPunct c = false := by simpa using hc
      rw [if_pos (by simp [hc'])] at h
      rw [List.takeWhile_cons, if_pos (by simp [hc'])]
      rw [splitPunct_cons, if_neg (by simp [hc']), ih d r h]

theorem dropWhile_head_false (q : Char → Bool) :
    ∀ (l : List Char) (d : Char) (r : List Char), l.dropWhile q = d :: r → q d = false := by
  intro l
  induction l with
  | nil => intro d r h; simp at h
  | cons c t ih =>
    intro d r h
    rw [List.dropWhile_cons] at h
    by_cases hc : q c = true
    · rw [if_pos hc] at h
      exact ih d r h
    · rw [if_neg hc] at h
      rcases List.cons.injEq .. ▸ h with ⟨rfl, _⟩
      simpa using hc

theorem tokensPW_flat_splitPunct :
    ∀ (n : Nat) (l : List Char), l.length ≤ n →
      (splitPunct l).flatMap (tokensBy pwChar) = tokensBy pwChar l := by
  intro n
  induction n with
  | zero =>
    intro l hl
    have : l = [] := by cases l <;> simp_all
    subst this
    rfl
  | succ n ih =>
    intro l hl
    by_cases h : l.dropWhile (fun c => !sentPunct c) = []
    · rw [splitPunct_no_sep l h]
      simp
    · obtain ⟨d, r, hd⟩ : ∃ d r, l.dropWhile (fun c => !sentPunct c) = d :: r := by
        cases hcase : l.dropWhile (fun c => !sentPunct c) with
        | nil => exact absurd hcase h
        | cons d r => exact ⟨d, r, rfl⟩
      rw [splitPunct_sep l d r hd]
      rw [List.flatMap_cons]
      have hrlen : (r.dropWhile sentPunct).length ≤ n := by
        have h1 : (d :: r).length ≤ l.length := by
          rw [← hd]
          exact length_dropWhile_le' _ l
        have h2 : (r.dropWhile sentPunct).length ≤ r.length := length_dropWhile_le' _ r
        simp only [List.length_cons] at h1
        omega
      rw [ih (r.dropWhile sentPunct) hrlen]
      have hpd : pwChar d = true := by
        have := dropWhile_head_false (fun c => !sentPunct c) l d r hd
        exact sentPunct_pwChar (by simpa using this)
      conv_rhs => rw [← List.takeWhile_append_dropWhile (fun c => !sentPunct c) l, hd]
      rw [tokensBy_mid_sep pwChar d hpd (l.takeWhile fun c => !sentPunct c) r]
      have hr : tokensBy pwChar r = tokensBy pwChar (r.dropWhile sentPunct) := by
        conv_lhs => rw [← List.takeWhile_append_dropWhile sentPunct r]
        exact tokensBy_front_sep pwChar _ _
          (fun c hc => sentPunct_pwChar (List.mem_takeWhile_imp hc))
      rw [hr]

theorem flatMap_tokens_strip_filter (L : List (List Char)) :
    ((L.map pyStripL).filter (fun l => l ≠ [])).flatMap (tokensBy pwChar) =
      L.flatMap (tokensBy pwChar) := by
  induction L with
  | nil => rfl
  | cons x L' ih =>
    rw [List.map_cons, List.filter_cons]
    by_cases hx : pyStripL x = []
    · rw [if_neg (by simp [hx])]
      rw [List.flatMap_cons, ih]
      have : tokensBy pwChar x = [] := by
        rw [← tokensBy_pyStripL x, hx]
        rfl
      rw [this, List.nil_append]
    · rw [if_pos (by simp [hx])]
      rw [List.flatMap_cons, List.flatMap_cons, ih, tokensBy_pyStripL]

theorem mergeLoop_tokens (lastS : List Char) :
    ∀ (ss : List (List Char)) (cur : List Char),
      ss.getLastD [] = lastS →
      (cur = [] ∨ ∃ c0, cur = c0 ++ [' ']) →
      ss ≠ [] →
      (mergeLoop lastS ss cur).flatMap (tokensBy pwChar) =
        tokensBy pwChar cur ++ ss.flatMap (tokensBy pwChar) := by
  intro ss
  induction ss with
  | nil => intro cur _ _ h; exact absurd rfl h
  | cons s rest ih =>
    intro cur hlast hcur _
    have hcur' : tokensBy pwChar (cur ++ s ++ ('.' :: ' ' :: [])) =
        tokensBy pwChar cur ++ tokensBy pwChar s := by
      have htail : ∀ c ∈ ('.' :: ' ' :: ([] : List Char)), pwChar c = true := by decide
      rcases hcur with rfl | ⟨c0, rfl⟩
      · rw [List.nil_append, tokensBy_back_sep pwChar s _ htail]
        rfl
      · have e1 : (c0 ++ [' ']) ++ s ++ ('.' :: ' ' :: []) =
            c0 ++ ' ' :: (s ++ ('.' :: ' ' :: [])) := by simp
        rw [e1, tokensBy_mid_sep pwChar ' ' (by decide) c0 (s ++ _),
          tokensBy_back_sep pwChar s _ htail,
          tokensBy_back_sep pwChar c0 [' '] (by decide)]
    unfold mergeLoop
    dsimp only
    cases rest with
    | nil =>
      have hs : s = lastS := by simpa using hlast
      rw [if_pos (Or.inr hs)]
      rw [List.flatMap_cons, List.flatMap_cons, tokensBy_pyStripL, hcur']
      simp [mergeLoop]
    | cons s2 rest2 =>
      have hlast2 : (s2 :: rest2).getLastD [] = lastS := by
        rw [← hlast]
        simp [List.getLastD_cons]
      by_cases hflush :
          5 ≤ (tokensBy wsChar (cur ++ s ++ ('.' :: ' ' :: []))).length ∨ s = lastS
      · rw [if_pos hflush]
        rw [List.flatMap_cons, tokensBy_pyStripL, hcur',
          ih [] hlast2 (Or.inl rfl) (by simp)]
        simp [tokensBy]
      · rw [if_neg hflush]
        rw [ih (cur ++ s ++ ('.' :: ' ' :: [])) hlast2
          (Or.inr ⟨cur ++ s ++ ['.'], by simp⟩) (by simp), hcur']
        simp

/-- C10 (amended): `split_into_sentences` always returns a non-empty list
of segments, and the words of the segments, concatenated in order, are
exactly the words of the input (words being maximal runs of characters that
are neither whitespace nor sentence punctuation).  When no sentence
boundary is found the whole input becomes one segment — with a period
appended by the merge step (see the counterexample); the input is returned
verbatim only when splitting leaves no non-empty piece. -/
theorem split_words_preserved (text : String) :
    (split_into_sentences text).flatMap wordsPW = wordsPW text ∧
    split_into_sentences text ≠ [] := by
  unfold split_into_sentences
  dsimp only
  by_cases h1 :
      (((splitPunct text.data).map pyStripL).filter (fun l => l ≠ [])).isEmpty = true
  · rw [if_pos h1]
    exact ⟨by simp, by simp⟩
  · rw [if_neg h1]
    by_cases h2 :
        (mergeLoop ((((splitPunct text.data).map pyStripL).filter (fun l => l ≠ [])).getLastD [])
          (((splitPunct text.data).map pyStripL).filter (fun l => l ≠ [])) []).isEmpty = true
    · rw [if_pos h2]
      exact ⟨by simp, by simp⟩
    · rw [if_neg h2]
      constructor
      · rw [List.flatMap_map]
        have hmap : ∀ l : List Char, wordsPW (⟨l⟩ : String) = tokensBy pwChar l :=
          fun l => rfl
        simp only [hmap]
        rw [mergeLoop_tokens _ _ [] rfl (Or.inl rfl)
          (by simpa using (List.isEmpty_iff.not.mp h1))]
        rw [flatMap_tokens_strip_filter]
        rw [tokensPW_flat_splitPunct text.data.length text.data (Nat.le_refl _)]
        rfl
      · simp only [ne_eq, List.map_eq_nil_iff]
        exact List.isEmpty_iff.not.mp h2

/-- C10 counterexample: on an input with no sentence boundary the function
does not fall back to the input itself as the single segment — the merge
step appends a period. -/
theorem split_fallback_appends_period_cex :
    split_into_sentences "hello world" = ["hello world."] ∧
    "hello world." ≠ "hello world" := by
  decide
